import Mathlib

/-!
Shallow embedding of the Moneez transaction pipeline (src/moneez.py).

Strings are Lean `String`s; Python string primitives used by the source
(`str.lower`, `str.strip`, `str.split`, `str.replace`, the `in` substring
test, `re.sub("\\W+", " ", -)`) are modelled over `String.data` by the
structurally recursive functions below, covering the ASCII range that the
bank-export data uses.  Decimal amounts (Python floats produced by
`float(...)` on two-decimal strings) are modelled as exact rationals.
Fallible Python code (exceptions, `sys.exit`) is modelled with `Except`.
-/

/-- Models Python `str.lower` on one character, ASCII range (`chr(ord(c)+32)`
for `'A'..'Z'`); full Unicode lowering is outside the data's alphabet. -/
def lowerChar (c : Char) : Char :=
  if 65 ≤ c.toNat ∧ c.toNat ≤ 90 then Char.ofNat (c.toNat + 32) else c

/-- Models Python `str.lower` over a whole string. -/
def lowerStr (s : String) : String := ⟨s.data.map lowerChar⟩

/-- An ASCII uppercase letter, Python `'A' <= c <= 'Z'`. -/
def isUpperChar (c : Char) : Bool := decide (65 ≤ c.toNat ∧ c.toNat ≤ 90)

/-- Models Python `str.strip` (drop leading and trailing whitespace). -/
def strip (s : String) : String :=
  ⟨((s.data.dropWhile Char.isWhitespace).reverse.dropWhile Char.isWhitespace).reverse⟩

/-- Models `value.replace(",", ".")` from `gls_process_field`. -/
def replaceCommaDot (s : String) : String :=
  ⟨s.data.map (fun c => if c = ',' then '.' else c)⟩

/-- A word character in the sense of `re`'s `\w`, ASCII range:
letters, digits and underscore. -/
def isWordChar (c : Char) : Bool := c.isAlphanum || c = '_'

/-- Worker for `collapseNonWord`: the flag records whether we are inside a
run of non-word characters whose replacement space was already emitted. -/
def collapseNW : Bool → List Char → List Char
  | _, [] => []
  | inRun, c :: rest =>
    if isWordChar c then c :: collapseNW false rest
    else if inRun then collapseNW true rest
    else ' ' :: collapseNW true rest

/-- Models `re.sub("\\W+", " ", value)`: every maximal run of non-word
characters becomes a single space. -/
def collapseNonWord (s : String) : String := ⟨collapseNW false s.data⟩

/-- Does `needle` occur at the very start of `hay`? -/
def matchAt : List Char → List Char → Bool
  | [], _ => true
  | _ :: _, [] => false
  | a :: as, b :: bs => a == b && matchAt as bs

/-- Models the Python substring test `needle in hay`. -/
def containsSub (needle : List Char) : List Char → Bool
  | [] => needle.isEmpty
  | c :: t => matchAt needle (c :: t) || containsSub needle t

/-- First occurrence of `sep` inside `hay`: the pieces before and after it. -/
def breakOnSub (sep : List Char) : List Char → Option (List Char × List Char)
  | [] => none
  | c :: t =>
    if matchAt sep (c :: t) then some ([], (c :: t).drop sep.length)
    else
      match breakOnSub sep t with
      | some (pre, post) => some (c :: pre, post)
      | none => none

/-- Fuel-driven worker for `splitSep`; the fuel (≥ length of the text) keeps
the recursion structural so that concrete runs reduce definitionally. -/
def splitSepGo (sep : List Char) : Nat → List Char → List (List Char)
  | 0, hay => [hay]
  | fuel + 1, hay =>
    match breakOnSub sep hay with
    | none => [hay]
    | some (pre, post) => pre :: splitSepGo sep fuel post

/-- Models Python `str.split(sep)` for a non-empty separator (the source only
ever splits on `";"`, `"\n"` and `"."`; Python rejects an empty separator). -/
def splitSep (sep hay : List Char) : List (List Char) :=
  if sep = [] then [hay] else splitSepGo sep (hay.length + 1) hay

/-- Numeric value of a digit string, as `int` parsing does. -/
def natOfDigits (l : List Char) : Nat := l.foldl (fun n c => 10 * n + (c.toNat - 48)) 0

/-- Parse a non-empty all-digit string. -/
def parseNat (s : String) : Option Nat :=
  if s.data ≠ [] ∧ s.data.all Char.isDigit then some (natOfDigits s.data) else none

/-- Calendar date as carried by the `datetime` values the source builds:
`month` is 1-based (datetime guarantees `1 ≤ month ≤ 12`). -/
structure MDate where
  year : Int
  month : Nat
  day : Nat
  deriving DecidableEq

/-- Models `datetime.strptime(value, "%d.%m.%Y")` on well-formed inputs:
day, month and year are digit fields split by dots, with range checks
(strptime additionally checks the day against the month's length; the
coarser `1..31` bound is enough for the claims under verification). -/
def parseDate (s : String) : Option MDate :=
  match (splitSep ['.'] s.data).map (fun part => (⟨part⟩ : String)) with
  | [d, m, y] =>
    match parseNat d, parseNat m, parseNat y with
    | some dn, some mn, some yn =>
      if 1 ≤ dn ∧ dn ≤ 31 ∧ 1 ≤ mn ∧ mn ≤ 12 then some ⟨(yn : Int), mn, dn⟩ else none
    | _, _, _ => none
  | _ => none

/-- Value of a decimal literal with integer part `ip` and fraction part `fp`. -/
def decValue (ip fp : List Char) : ℚ :=
  (natOfDigits ip : ℚ) + (natOfDigits fp : ℚ) / (10 : ℚ) ^ fp.length

/-- Models Python `float(...)` on plain decimal literals: optional sign,
digits, at most one dot, at least one digit overall (the subset `float` can
receive from the bank exports; exponents, `inf`/`nan`, underscores and
surrounding whitespace do not occur there). -/
def parseFloat (s : String) : Option ℚ :=
  let signed : ℚ × List Char :=
    match s.data with
    | '-' :: rest => (-1, rest)
    | '+' :: rest => (1, rest)
    | l => (1, l)
  match splitSep ['.'] signed.2 with
  | [ip] =>
    if ip ≠ [] ∧ ip.all Char.isDigit then some (signed.1 * (natOfDigits ip : ℚ)) else none
  | [ip, fp] =>
    if ip ++ fp ≠ [] ∧ (ip ++ fp).all Char.isDigit then some (signed.1 * decValue ip fp)
    else none
  | _ => none

/-- The `Payment` record of the source; every attribute starts out `None`. -/
structure Payment where
  usage : Option String
  payment_type : Option String
  bic : Option String
  iban : Option String
  name : Option String
  amount : Option ℚ
  date : Option MDate
  amount_left : Option ℚ
  innate_category : Option String
  category : Option String
  relevant_for_tax : Option String
  deriving DecidableEq

/-- A freshly constructed `Payment()`. -/
def Payment.init : Payment :=
  { usage := none, payment_type := none, bic := none, iban := none, name := none,
    amount := none, date := none, amount_left := none, innate_category := none,
    category := none, relevant_for_tax := none }

/-- The ways a run can abort: `sys.exit` calls and uncaught Python
exceptions raised by the source. -/
inductive RunError where
  | unknownKey (key : String)
  | unknownCurrency (value : String)
  | nonEmptyBemerkung (value : String)
  | valueError (value : String)
  | typeError (name : String)
  | attributeError
  | indexError
  deriving DecidableEq

/-- Process exit status produced by each abort: `sys.exit(-1)` exits with
status 255 on POSIX, `sys.exit()` (no argument) with status 0, and an
uncaught exception makes the interpreter exit with status 1. -/
def exitCode : RunError → Nat
  | .unknownKey _ => 255
  | .unknownCurrency _ => 255
  | .nonEmptyBemerkung _ => 0
  | .valueError _ => 1
  | .typeError _ => 1
  | .attributeError => 1
  | .indexError => 1

/-- Source `gls_process_field`: binds one CSV field to a `Payment` attribute. -/
def gls_process_field (payment : Payment) (key value : String) : Except RunError Payment :=
  match key with
  | "Buchungstag" =>
    match parseDate value with
    | some d => .ok { payment with date := some d }
    | none => .error (.valueError value)
  | "Name Zahlungsbeteiligter" => .ok { payment with name := some value }
  | "IBAN Zahlungsbeteiligter" => .ok { payment with iban := some value }
  | "BIC (SWIFT-Code) Zahlungsbeteiligter" => .ok { payment with bic := some value }
  | "Buchungstext" => .ok { payment with payment_type := some value }
  | "Verwendungszweck" => .ok { payment with usage := some (collapseNonWord value) }
  | "Betrag" =>
    match parseFloat (replaceCommaDot value) with
    | some q => .ok { payment with amount := some q }
    | none => .error (.valueError value)
  | "Waehrung" =>
    if value = "EUR" then .ok payment else .error (.unknownCurrency value)
  | "Saldo nach Buchung" =>
    match parseFloat (replaceCommaDot value) with
    | some q => .ok { payment with amount_left := some q }
    | none => .error (.valueError value)
  | "Bemerkung" =>
    if strip value = "" then .ok payment else .error (.nonEmptyBemerkung value)
  | "Kategorie" => .ok { payment with innate_category := some value }
  | "Steuerrelevant" => .ok { payment with relevant_for_tax := some value }
  | "Glaeubiger ID" => .ok payment
  | "Mandatsreferenz" => .ok payment
  | "Valutadatum" => .ok payment
  | "Bezeichnung Auftragskonto" => .ok payment
  | "IBAN Auftragskonto" => .ok payment
  | "BIC Auftragskonto" => .ok payment
  | "Bankname Auftragskonto" => .ok payment
  | _ => .error (.unknownKey key)

/-- Error-propagating map, the value-level shape of the Python `for` loops
that stop the run at the first failing iteration. -/
def mapME (f : α → Except ε β) : List α → Except ε (List β)
  | [] => .ok []
  | a :: l =>
    match f a with
    | .error e => .error e
    | .ok b =>
      match mapME f l with
      | .error e => .error e
      | .ok bs => .ok (b :: bs)

/-- Error-propagating left fold. -/
def foldME (f : β → α → Except ε β) : β → List α → Except ε β
  | b, [] => .ok b
  | b, a :: l =>
    match f b a with
    | .error e => .error e
    | .ok bNew => foldME f bNew l

/-- First-match lookup in an association list (the loaded JSON dicts have
distinct keys, so this is exactly Python dict indexing). -/
def lookupStr : List (String × String) → String → Option String
  | [], _ => none
  | (k, v) :: rest, key => if k = key then some v else lookupStr rest key

/-- The keyword scan of `associate_category`: first keyword (in the dict's
iteration order) that occurs in the lowered name or the lowered usage. -/
def firstKeyword : List (String × String) → String → String → Option String
  | [], _, _ => none
  | (kw, cat) :: rest, name, usage =>
    if containsSub kw.data name.data || containsSub kw.data usage.data then some cat
    else firstKeyword rest name usage

/-- Source `associate_category`: sets the category to "Unknown", then the IBAN
table, then the keyword scan.  When the IBAN does not match, Python reads
`payment.name.lower()` and `payment.usage.lower()`, which raises
`AttributeError` on an unset (None) name or usage. -/
def associate_category (known_ibans keywords : List (String × String))
    (payment : Payment) : Except RunError Payment :=
  let p0 := { payment with category := some "Unknown" }
  match payment.iban.bind (lookupStr known_ibans) with
  | some cat => .ok { p0 with category := some cat }
  | none =>
    match payment.name, payment.usage with
    | some nm, some us =>
      match firstKeyword keywords (lowerStr nm) (lowerStr us) with
      | some cat => .ok { p0 with category := some cat }
      | none => .ok p0
    | _, _ => .error .attributeError

/-- Source `PAYMENTS_BY_YEAR`: year ↦ its twelve month buckets, in first-creation
order (a `defaultdict`). -/
abbrev Buckets := List (Int × List (List Payment))

/-- The fresh 12-bucket list a `defaultdict` access creates for a new year. -/
def emptyYear : List (List Payment) := List.replicate 12 []

/-- Append a payment to month bucket `i` of a year's 12-list. -/
def addToYear (months : List (List Payment)) (i : Nat) (p : Payment) :
    List (List Payment) :=
  months.set i (months.getD i [] ++ [p])

/-- Source `PAYMENTS_BY_YEAR[year][month - 1].append(p)` with `defaultdict`
creation of a missing year. -/
def insertPayment : Buckets → Int → Nat → Payment → Buckets
  | [], y, i, p => [(y, addToYear emptyYear i p)]
  | (y0, ms) :: rest, y, i, p =>
    if y0 = y then (y0, addToYear ms i p) :: rest
    else (y0, ms) :: insertPayment rest y i p

/-- Dict lookup in `PAYMENTS_BY_YEAR` without creating the year. -/
def lookupYear : Buckets → Int → Option (List (List Payment))
  | [], _ => none
  | (y0, ms) :: rest, y => if y0 = y then some ms else lookupYear rest y

/-- The `(year, month index)` bucket; absent years and out-of-range indices
read as empty. -/
def getBucket (B : Buckets) (y : Int) (i : Nat) : List Payment :=
  ((lookupYear B y).getD emptyYear).getD i []

/-- The global mutable state of the source: `ALL_PAYMENTS` and
`PAYMENTS_BY_YEAR`. -/
structure AggState where
  all_payments : List Payment
  buckets : Buckets
  deriving DecidableEq

/-- State at program start: empty list, empty defaultdict. -/
def initState : AggState := ⟨[], []⟩

/-- The bucketing loop of `process_payments`; an unset date raises
`AttributeError` (on `p.date.year`) mid-loop, after `ALL_PAYMENTS` was
already extended, so the error carries the partially updated state. -/
def bucketAll (all : List Payment) (B : Buckets) :
    List Payment → Except (RunError × AggState) AggState
  | [] => .ok ⟨all, B⟩
  | p :: rest =>
    match p.date with
    | none => .error (.attributeError, ⟨all, B⟩)
    | some d => bucketAll all (insertPayment B d.year (d.month - 1) p) rest

/-- Source `process_payments`: categorize every payment, extend `ALL_PAYMENTS`,
then append each payment to its `(date.year, date.month - 1)` bucket. -/
def process_payments (known_ibans keywords : List (String × String))
    (st : AggState) (payments : List Payment) : Except (RunError × AggState) AggState :=
  match mapME (associate_category known_ibans keywords) payments with
  | .error e => .error (e, st)
  | .ok cps => bucketAll (st.all_payments ++ cps) st.buckets cps

/-- Python dict insertion: overriding an existing key keeps its position. -/
def dictInsert (d : List (String × String)) (k v : String) : List (String × String) :=
  match d with
  | [] => [(k, v)]
  | (k0, v0) :: rest => if k0 = k then (k, v) :: rest else (k0, v0) :: dictInsert rest k v

/-- The header-to-value dict built for one data row
(`kv[keys[index]] = value`); Python raises `IndexError` when a data row has
more fields than the header. -/
def buildKV (keys row : List String) : Except RunError (List (String × String)) :=
  if keys.length < row.length then .error .indexError
  else .ok ((keys.zip row).foldl (fun d kv => dictInsert d kv.1 kv.2) [])

/-- A field-processor strategy as used by `process_csv`. -/
abbrev FieldProcessor := Payment → String → String → Except RunError Payment

/-- The parsing half of `process_csv`: strip the text, split into rows and
fields, and key every data row by the header row. -/
def keyedRows (content col_sep row_sep : String) :
    Except RunError (List (List (String × String))) :=
  let rows0 := (splitSep row_sep.data (strip content).data).map
    (fun r => (splitSep col_sep.data r).map (fun f => (⟨f⟩ : String)))
  match rows0 with
  | [] => .error .indexError
  | keys :: rows => mapME (buildKV keys) rows

/-- Run the field processor over one keyed row against a fresh `Payment()`. -/
def processRow (fp : FieldProcessor) (row : List (String × String)) :
    Except RunError Payment :=
  foldME (fun p kv => fp p kv.1 kv.2) Payment.init row

/-- Source `process_csv`: key all rows, process all fields of all rows, and only
then hand the batch to `process_payments` (so a field error aborts before
any aggregation of this file's rows). -/
def process_csv (known_ibans keywords : List (String × String)) (st : AggState)
    (content col_sep row_sep : String) (fp : FieldProcessor) :
    Except (RunError × AggState) AggState :=
  match keyedRows content col_sep row_sep with
  | .error e => .error (e, st)
  | .ok rs =>
    match mapME (processRow fp) rs with
    | .error e => .error (e, st)
    | .ok payments => process_payments known_ibans keywords st payments

/-- One entry of the config's `input files` list; `content` is the text of
the file at its `file` path. -/
structure FileInfo where
  content : String
  columns : Option String
  rows : Option String
  field_processor : Option String
  deriving DecidableEq

/-- The parts of the loaded JSON config the pipeline reads. -/
structure Config where
  known_ibans : List (String × String)
  keywords : List (String × String)
  input_files : List FileInfo
  deriving DecidableEq

/-- The `match field_processor` dispatch in `process_all_input_files`.  For
an unrecognized name the source only prints a message and does not exit:
the name string stays bound, and calling it raises `TypeError` at the first
field of the first data row (a file without data rows never calls it). -/
def dispatch_field_processor (name : String) : FieldProcessor :=
  match name with
  | "gls" => gls_process_field
  | other => fun _ _ _ => .error (.typeError other)

/-- Source `process_all_input_files`: ingest every configured file in order, with
the per-file separator and field-processor defaults. -/
def process_all_input_files (cfg : Config) (st : AggState) :
    Except (RunError × AggState) AggState :=
  foldME
    (fun st1 fi =>
      process_csv cfg.known_ibans cfg.keywords st1 fi.content
        (fi.columns.getD ";") (fi.rows.getD "\n")
        (dispatch_field_processor (fi.field_processor.getD "gls")))
    st cfg.input_files

/-- Abort error of a run, when it aborted. -/
def runErrorOf (r : Except (RunError × AggState) AggState) : Option RunError :=
  match r with
  | .error (e, _) => some e
  | .ok _ => none

/-- Number of globally aggregated payments at the moment of abort. -/
def abortPaymentCount (r : Except (RunError × AggState) AggState) : Option Nat :=
  match r with
  | .error (_, st) => some st.all_payments.length
  | .ok _ => none

/-- Amount of a payment as the sums in `overview_year` read it (the
pipeline always sets `amount` before aggregation; Python would raise on an
unset one). -/
def amountOf (p : Payment) : ℚ := p.amount.getD 0

/-- The per-category month sum `Σ` of `overview_year`:
`sum(p.amount for p in payments[month] if p.category == category)`. -/
def catSum (ps : List Payment) (c : Option String) : ℚ :=
  ((ps.filter (fun p => decide (p.category = c))).map amountOf).sum

/-- One bar segment placed by `overview_year`:
`ax.bar(month + 1, Σ, bottom=bottom, ...)`. -/
structure Segment where
  category : Option String
  bottom : ℚ
  height : ℚ
  deriving DecidableEq

/-- One iteration of the stacking loop: place the category's segment at the
positive or negative running total, then advance that total. -/
def stepSeg (ps : List Payment) (st : List Segment × ℚ × ℚ) (c : Option String) :
    List Segment × ℚ × ℚ :=
  let S := catSum ps c
  (st.1 ++ [⟨c, if 0 ≤ S then st.2.1 else st.2.2, S⟩],
   if 0 ≤ S then st.2.1 + S else st.2.1,
   if 0 ≤ S then st.2.2 else st.2.2 + S)

/-- The per-month stacking loop of `overview_year`, starting from
`bottom_positives = 0` and `top_negatives = 0`; returns the placed segments
and the two final running totals. -/
def layoutMonth (cs : List (Option String)) (ps : List Payment) :
    List Segment × ℚ × ℚ :=
  cs.foldl (stepSeg ps) ([], 0, 0)

/-- The categories discovered for a year:
`list(set(payment.category for month in range(12) for payment in payments[month]))`.
CPython's set order is unspecified; this deduplication fixes one order,
which none of the verified properties depend on. -/
def discoverCategories (payments : List (List Payment)) : List (Option String) :=
  ((((List.range 12).map (fun m => payments.getD m [])).flatten).map
    (fun p => p.category)).dedup

/-- Sum of the heights of the segments placed on the positive stack. -/
def possum (segs : List Segment) : ℚ :=
  ((segs.filter (fun s => decide (0 ≤ s.height))).map (fun s => s.height)).sum

/-- Sum of the (negative) heights of the segments on the negative stack. -/
def negsum (segs : List Segment) : ℚ :=
  ((segs.filter (fun s => decide (s.height < 0))).map (fun s => s.height)).sum

/-- Sum of the magnitudes of the segments on the negative stack. -/
def negMagSum (segs : List Segment) : ℚ :=
  ((segs.filter (fun s => decide (s.height < 0))).map (fun s => |s.height|)).sum

/-- Structural well-formedness of the buckets: every year holds exactly
twelve month lists. -/
def WFB (B : Buckets) : Prop := ∀ e ∈ B, (e.2 : List (List Payment)).length = 12

/-- The aggregation invariant of the spec: the global list and the
year/month buckets agree, and a payment sits only in the bucket named by
its date (`date.year`, `date.month - 1`). -/
def Consistent (st : AggState) : Prop :=
  WFB st.buckets ∧
  (∀ p ∈ st.all_payments, ∃ d, p.date = some d ∧
    p ∈ getBucket st.buckets d.year (d.month - 1)) ∧
  (∀ y i p, p ∈ getBucket st.buckets y i →
    p ∈ st.all_payments ∧ ∃ d, p.date = some d ∧ d.year = y ∧ d.month - 1 = i)

instance {ε α : Type} [DecidableEq ε] [DecidableEq α] : DecidableEq (Except ε α) := fun a b =>
  match a, b with
  | .error e1, .error e2 =>
    if h : e1 = e2 then isTrue (by rw [h]) else isFalse (fun hh => by cases hh; exact h rfl)
  | .ok a1, .ok a2 =>
    if h : a1 = a2 then isTrue (by rw [h]) else isFalse (fun hh => by cases hh; exact h rfl)
  | .error _, .ok _ => isFalse (fun hh => by cases hh)
  | .ok _, .error _ => isFalse (fun hh => by cases hh)

/-- An input file whose single data row is a well-formed EUR transaction. -/
def fileEUR : FileInfo :=
  ⟨"Buchungstag;Name Zahlungsbeteiligter;Verwendungszweck;Betrag;Waehrung\n05.01.2023;ACME;Miete Januar;100,00;EUR",
   none, none, none⟩

/-- An input file whose single data row reports the currency USD. -/
def fileUSD : FileInfo :=
  ⟨"Buchungstag;Name Zahlungsbeteiligter;Verwendungszweck;Betrag;Waehrung\n06.01.2023;ACME;Miete Februar;50,00;USD",
   none, none, none⟩

/-- A run over a clean EUR file followed by a USD file. -/
def cfgMulti : Config := ⟨[], [], [fileEUR, fileUSD]⟩

/-- A config naming an unrecognized field processor for a file that holds
only a header row. -/
def cfgFPHeaderOnly : Config := ⟨[], [], [⟨"Buchungstag", none, none, some "xyz"⟩]⟩

/-- A config naming an unrecognized field processor for a file with a data
row. -/
def cfgFPData : Config := ⟨[], [], [⟨"Buchungstag\n05.01.2023", none, none, some "xyz"⟩]⟩

/-- A config whose single file carries a non-empty `Bemerkung` value. -/
def cfgBem : Config :=
  ⟨[], [], [⟨"Buchungstag;Bemerkung\n05.01.2023;wat", none, none, none⟩]⟩

/-- Matching condition of the spec's keyword rule: the keyword occurs as a
substring of the lowercased name or of the lowercased usage text. -/
def kwMatches (kw nm us : String) : Prop :=
  containsSub kw.data (lowerStr nm).data = true ∨ containsSub kw.data (lowerStr us).data = true

instance (kw nm us : String) : Decidable (kwMatches kw nm us) := by
  unfold kwMatches; infer_instance

/-- A transaction carrying a mapped IBAN and keyword-matching text. -/
def payIbanW : Payment :=
  { Payment.init with
    iban := some "DE99"
    name := some "Die Miete GmbH"
    usage := some "Miete Januar" }

/-- A transaction with no IBAN whose usage text matches a keyword. -/
def payKwW : Payment :=
  { Payment.init with name := some "Hans", usage := some "Miete Januar" }

/-- A categorized positive transaction, for the layout witnesses. -/
def paySalaryW : Payment :=
  { Payment.init with category := some "Salary", amount := some (100 : ℚ) }

/-- A categorized negative transaction, for the layout witnesses. -/
def payRentW : Payment :=
  { Payment.init with category := some "Rent", amount := some (-40 : ℚ) }

/-- Year buckets holding the two witness transactions in January. -/
def bucketsW : List (List Payment) := [[paySalaryW, payRentW]]

/-- An uncategorized transaction with a valid date, for the aggregation
witness. -/
def payBatchW : Payment :=
  { Payment.init with
    date := some ⟨2023, 1, 5⟩
    name := some "ACME"
    usage := some "Miete" }

/-- C6.  The spec calls an unrecognized field-processor name a fatal
configuration error that aborts the run immediately with no ingestion of the
file; the source's `case _:` only prints and falls through, so a header-only
file completes the run successfully, and a file with data rows fails only
later, with a `TypeError` when the leftover name string is called. -/
theorem unknown_processor_no_abort :
    process_all_input_files cfgFPHeaderOnly initState = .ok initState ∧
    process_all_input_files cfgFPData initState = .error (.typeError "xyz", initState) := by
  exact ⟨by with_unfolding_all rfl, by with_unfolding_all rfl⟩

/-- C7.  A non-empty (after stripping) `Bemerkung` value does abort the run,
but through `sys.exit()` with no argument, which terminates the process with
exit status 0 — not the non-zero status the claim requires. -/
theorem bemerkung_exit_zero :
    gls_process_field Payment.init "Bemerkung" "wat" = .error (.nonEmptyBemerkung "wat") ∧
    runErrorOf (process_all_input_files cfgBem initState) = some (.nonEmptyBemerkung "wat") ∧
    exitCode (.nonEmptyBemerkung "wat") = 0 := by
  exact ⟨by with_unfolding_all rfl, by with_unfolding_all rfl, rfl⟩

/-- C8.  Amount parsing is `float(value.replace(",", "."))` for both
`Betrag` and `Saldo nach Buchung`: the comma becomes a dot, there is no
thousands-separator handling ("1.234,56" raises), and "1234,56" and
"-12,30" parse to 1234.56 and -12.30. -/
theorem amount_comma_parse :
    replaceCommaDot "1234,56" = "1234.56" ∧
    gls_process_field Payment.init "Betrag" "1234,56" =
      .ok { Payment.init with amount := some (1234.56 : ℚ) } ∧
    gls_process_field Payment.init "Betrag" "-12,30" =
      .ok { Payment.init with amount := some (-12.30 : ℚ) } ∧
    gls_process_field Payment.init "Saldo nach Buchung" "1234,56" =
      .ok { Payment.init with amount_left := some (1234.56 : ℚ) } ∧
    gls_process_field Payment.init "Saldo nach Buchung" "-12,30" =
      .ok { Payment.init with amount_left := some (-12.30 : ℚ) } ∧
    gls_process_field Payment.init "Betrag" "1.234,56" = .error (.valueError "1.234,56") := by
  exact ⟨rfl, by with_unfolding_all rfl, by with_unfolding_all rfl,
    by with_unfolding_all rfl, by with_unfolding_all rfl, by with_unfolding_all rfl⟩

/-- C5, counterexample.  A run over a clean EUR file followed by a USD file
aborts with the currency error, but at the moment of abort one transaction
of the run is already in the global list — aggregation of earlier files has
happened, refuting "no transaction of that run has yet been inserted". -/
theorem currency_abort_after_prior_file :
    runErrorOf (process_all_input_files cfgMulti initState) = some (.unknownCurrency "USD") ∧
    abortPaymentCount (process_all_input_files cfgMulti initState) = some 1 := by
  exact ⟨by with_unfolding_all rfl, by with_unfolding_all rfl⟩

lemma matchAt_mem : ∀ (needle hay : List Char), matchAt needle hay = true →
    ∀ c ∈ needle, c ∈ hay := by
  intro needle
  induction needle with
  | nil => intro hay _ c hc; exact absurd hc (List.not_mem_nil c)
  | cons a as ih =>
    intro hay h c hc
    cases hay with
    | nil => simp [matchAt] at h
    | cons b bs =>
      simp only [matchAt, Bool.and_eq_true, beq_iff_eq] at h
      rcases List.mem_cons.mp hc with rfl | hmem
      · exact h.1 ▸ List.mem_cons_self _ _
      · exact List.mem_cons_of_mem _ (ih bs h.2 c hmem)

lemma containsSub_mem : ∀ (hay needle : List Char), containsSub needle hay = true →
    ∀ c ∈ needle, c ∈ hay := by
  intro hay
  induction hay with
  | nil =>
    intro needle h c hc
    simp only [containsSub, List.isEmpty_iff] at h
    subst h; exact absurd hc (List.not_mem_nil c)
  | cons b bs ih =>
    intro needle h c hc
    simp only [containsSub, Bool.or_eq_true] at h
    rcases h with h | h
    · exact matchAt_mem needle (b :: bs) h c hc
    · exact List.mem_cons_of_mem _ (ih needle h c hc)

lemma lowerChar_not_upper (c : Char) : isUpperChar (lowerChar c) = false := by
  unfold lowerChar isUpperChar
  by_cases h : 65 ≤ c.toNat ∧ c.toNat ≤ 90
  · rw [if_pos h]
    obtain ⟨h1, h2⟩ := h
    generalize hm : c.toNat = m at h1 h2
    interval_cases m <;> rfl
  · rw [if_neg h]
    exact decide_eq_false h

lemma lowerStr_no_upper (s : String) (c : Char) (hc : c ∈ (lowerStr s).data) :
    isUpperChar c = false := by
  simp only [lowerStr] at hc
  rcases List.mem_map.mp hc with ⟨y, _, rfl⟩
  exact lowerChar_not_upper y

lemma firstKeyword_of_none (kws : List (String × String)) (n u : String)
    (h : ∀ kc ∈ kws, containsSub kc.1.data n.data = false ∧ containsSub kc.1.data u.data = false) :
    firstKeyword kws n u = none := by
  induction kws with
  | nil => rfl
  | cons kc rest ih =>
    obtain ⟨kw, cat⟩ := kc
    have hh := h (kw, cat) (List.mem_cons_self _ _)
    simp only [firstKeyword, hh.1, hh.2, Bool.or_self, Bool.false_eq_true, if_false]
    exact ih (fun kc2 hm => h kc2 (List.mem_cons_of_mem _ hm))

lemma firstKeyword_first (pre post : List (String × String)) (kw cat : String) (n u : String)
    (hm : (containsSub kw.data n.data || containsSub kw.data u.data) = true)
    (hpre : ∀ kc ∈ pre, containsSub kc.1.data n.data = false ∧ containsSub kc.1.data u.data = false) :
    firstKeyword (pre ++ (kw, cat) :: post) n u = some cat := by
  induction pre with
  | nil => simp [firstKeyword, hm]
  | cons kc rest ih =>
    obtain ⟨kw2, cat2⟩ := kc
    have hh := hpre (kw2, cat2) (List.mem_cons_self _ _)
    simp only [List.cons_append, firstKeyword, hh.1, hh.2, Bool.or_self, Bool.false_eq_true,
      if_false]
    exact ih (fun kc2 hm2 => hpre kc2 (List.mem_cons_of_mem _ hm2))

lemma firstKeyword_skip (pre post : List (String × String)) (kw cat : String) (n u : String)
    (hno : containsSub kw.data n.data = false ∧ containsSub kw.data u.data = false) :
    firstKeyword (pre ++ (kw, cat) :: post) n u = firstKeyword (pre ++ post) n u := by
  induction pre with
  | nil => simp [firstKeyword, hno.1, hno.2]
  | cons kc rest ih =>
    obtain ⟨kw2, cat2⟩ := kc
    by_cases h2 : (containsSub kw2.data n.data || containsSub kw2.data u.data) = true
    · simp [firstKeyword, h2]
    · simp only [List.cons_append, firstKeyword, Bool.not_eq_true] at h2 ⊢
      rw [h2]
      simpa using ih

lemma not_kwMatches_iff (kw nm us : String) :
    ¬ kwMatches kw nm us ↔
      containsSub kw.data (lowerStr nm).data = false ∧
      containsSub kw.data (lowerStr us).data = false := by
  unfold kwMatches
  constructor
  · intro h
    constructor
    · cases hx : containsSub kw.data (lowerStr nm).data
      · rfl
      · exact absurd (Or.inl hx) h
    · cases hx : containsSub kw.data (lowerStr us).data
      · rfl
      · exact absurd (Or.inr hx) h
  · rintro ⟨h1, h2⟩ (h | h)
    · rw [h1] at h; cases h
    · rw [h2] at h; cases h

/-- C1.  After categorization every transaction's category is set, and a
transaction whose IBAN is a key of the IBAN table gets exactly the mapped
category, whatever the keyword table and the name and usage texts hold. -/
theorem iban_precedence (ibans kws : List (String × String)) (p q : Payment) :
    (associate_category ibans kws p = .ok q → q.category ≠ none) ∧
    (∀ ib cat, p.iban = some ib → lookupStr ibans ib = some cat →
      associate_category ibans kws p = .ok { p with category := some cat }) := by
  constructor
  · intro h
    unfold associate_category at h
    cases hb : p.iban.bind (lookupStr ibans) with
    | some cat => rw [hb] at h; cases h; simp
    | none =>
      rw [hb] at h
      cases hnm : p.name with
      | none => rw [hnm] at h; cases h
      | some nm =>
        cases hus : p.usage with
        | none => rw [hnm, hus] at h; cases h
        | some us =>
          rw [hnm, hus] at h
          dsimp only at h
          cases hfk : firstKeyword kws (lowerStr nm) (lowerStr us) with
          | some cat => rw [hfk] at h; cases h; simp
          | none => rw [hfk] at h; cases h; simp
  · intro ib cat hib hlk
    have hb : p.iban.bind (lookupStr ibans) = some cat := by
      rw [hib, Option.some_bind, hlk]
    unfold associate_category
    rw [hb]

/-- C2.  For a transaction with no IBAN match (and set name and usage),
the category is that of the first keyword, in the configured order, that is
a substring of the lowercased name or the lowercased usage; with no match it
is "Unknown". -/
theorem keyword_first_match (ibans kws : List (String × String)) (p : Payment) (nm us : String)
    (hib : p.iban.bind (lookupStr ibans) = none)
    (hnm : p.name = some nm) (hus : p.usage = some us) :
    ((∀ kc ∈ kws, ¬ kwMatches kc.1 nm us) →
      associate_category ibans kws p = .ok { p with category := some "Unknown" }) ∧
    (∀ pre kw cat post, kws = pre ++ (kw, cat) :: post → kwMatches kw nm us →
      (∀ kc ∈ pre, ¬ kwMatches kc.1 nm us) →
      associate_category ibans kws p = .ok { p with category := some cat }) := by
  constructor
  · intro hall
    have hfk : firstKeyword kws (lowerStr nm) (lowerStr us) = none :=
      firstKeyword_of_none kws _ _
        (fun kc hm => (not_kwMatches_iff kc.1 nm us).mp (hall kc hm))
    unfold associate_category
    rw [hib, hnm, hus]
    dsimp only
    rw [hfk]
  · intro pre kw cat post hsplit hm hpre
    have hm2 : (containsSub kw.data (lowerStr nm).data ||
        containsSub kw.data (lowerStr us).data) = true := by
      rcases hm with h | h <;> simp [h]
    have hfk : firstKeyword kws (lowerStr nm) (lowerStr us) = some cat := by
      rw [hsplit]
      exact firstKeyword_first pre post kw cat _ _ hm2
        (fun kc hmem => (not_kwMatches_iff kc.1 nm us).mp (hpre kc hmem))
    unfold associate_category
    rw [hib, hnm, hus]
    dsimp only
    rw [hfk]

/-- C10.  A configured keyword containing an ASCII uppercase letter is
compared verbatim against the lowercased name and usage, so it can never
match, and dropping its rule from the keyword table leaves categorization
unchanged. -/
theorem uppercase_keyword_never_matches (ibans pre post : List (String × String))
    (kw cat : String) (p : Payment) (nm us : String)
    (hib : p.iban.bind (lookupStr ibans) = none)
    (hnm : p.name = some nm) (hus : p.usage = some us)
    (hup : ∃ c ∈ kw.data, isUpperChar c = true) :
    ¬ kwMatches kw nm us ∧
    associate_category ibans (pre ++ (kw, cat) :: post) p =
      associate_category ibans (pre ++ post) p := by
  obtain ⟨c, hc, hcu⟩ := hup
  have hno : ¬ kwMatches kw nm us := by
    rintro (h | h)
    · have := lowerStr_no_upper nm c (containsSub_mem _ _ h c hc)
      rw [this] at hcu; cases hcu
    · have := lowerStr_no_upper us c (containsSub_mem _ _ h c hc)
      rw [this] at hcu; cases hcu
  refine ⟨hno, ?_⟩
  have hskip := firstKeyword_skip pre post kw cat (lowerStr nm) (lowerStr us)
    ((not_kwMatches_iff kw nm us).mp hno)
  unfold associate_category
  rw [hib, hnm, hus]
  dsimp only
  rw [hskip]

/-- Witness for C1: a concrete transaction whose IBAN is mapped to "Home"
while its texts match the keyword "miete"; the IBAN category wins. -/
theorem iban_precedence_witness :
    lookupStr [("DE99", "Home")] "DE99" = some "Home" ∧
    associate_category [("DE99", "Home")] [("miete", "Rent")] payIbanW =
      .ok { payIbanW with category := some "Home" } :=
  ⟨rfl, (iban_precedence [("DE99", "Home")] [("miete", "Rent")] payIbanW Payment.init).2
    "DE99" "Home" rfl rfl⟩

/-- Witness for C2: with no IBAN match, the first matching keyword (second
in the table; the first does not match) decides the category. -/
theorem keyword_first_match_witness :
    kwMatches "miete" "Hans" "Miete Januar" ∧
    associate_category [] [("xx", "A"), ("miete", "Rent")] payKwW =
      .ok { payKwW with category := some "Rent" } :=
  ⟨by decide,
   (keyword_first_match [] [("xx", "A"), ("miete", "Rent")] payKwW "Hans" "Miete Januar"
      rfl rfl rfl).2 [("xx", "A")] "miete" "Rent" [] rfl (by decide) (by decide)⟩

/-- Witness for C10: the keyword "MIETE" holds uppercase letters, so it
never matches and its rule can be dropped without changing the result. -/
theorem uppercase_keyword_never_matches_witness :
    (∃ c ∈ ("MIETE" : String).data, isUpperChar c = true) ∧
    (¬ kwMatches "MIETE" "Hans" "Miete Januar" ∧
      associate_category [] ([("aaa", "B")] ++ ("MIETE", "X") :: [("miete", "Rent")]) payKwW =
        associate_category [] ([("aaa", "B")] ++ [("miete", "Rent")]) payKwW) :=
  ⟨by decide,
   uppercase_keyword_never_matches [] [("aaa", "B")] [("miete", "Rent")] "MIETE" "X"
     payKwW "Hans" "Miete Januar" rfl rfl rfl (by decide)⟩

lemma foldME_append (f : β → α → Except ε β) (b : β) (l1 l2 : List α) :
    foldME f b (l1 ++ l2) =
      match foldME f b l1 with
      | .error e => .error e
      | .ok b1 => foldME f b1 l2 := by
  induction l1 generalizing b with
  | nil => rfl
  | cons a l ih =>
    simp only [List.cons_append, foldME]
    cases f b a with
    | error e => rfl
    | ok b1 => exact ih b1

lemma mapME_append_error (f : α → Except ε β) (l1 : List α) (a : α) (l2 : List α) (e : ε)
    (h1 : ∀ x ∈ l1, ∃ b, f x = .ok b) (ha : f a = .error e) :
    mapME f (l1 ++ a :: l2) = .error e := by
  induction l1 with
  | nil => simp only [List.nil_append, mapME, ha]
  | cons x l ih =>
    obtain ⟨b, hb⟩ := h1 x (List.mem_cons_self _ _)
    have ih2 := ih (fun y hy => h1 y (List.mem_cons_of_mem _ hy))
    simp only [List.cons_append, mapME, hb, List.append_eq, ih2]

lemma gls_waehrung (p : Payment) (v : String) :
    gls_process_field p "Waehrung" v =
      if v = "EUR" then .ok p else .error (.unknownCurrency v) := rfl

lemma processRow_currency_error (pre post : List (String × String)) (v : String)
    (hv : v ≠ "EUR")
    (hpre : ∃ p, foldME (fun p kv => gls_process_field p kv.1 kv.2) Payment.init pre = .ok p) :
    processRow gls_process_field (pre ++ ("Waehrung", v) :: post) =
      .error (.unknownCurrency v) := by
  obtain ⟨p, hp⟩ := hpre
  unfold processRow
  rw [foldME_append, hp]
  dsimp only
  simp only [foldME, gls_waehrung, if_neg hv]

/-- C5 (amended).  An input row carrying a `Waehrung` value other than
"EUR" makes ingestion of its file abort with the currency error, provided
the earlier rows and the row's earlier fields process cleanly; the
aggregation state at the abort equals the state from before the file, so no
transaction of that file was inserted into the global list or any bucket
(transactions of earlier files in the run remain aggregated, see the
counterexample theorem). -/
theorem currency_state_unchanged (ibans kws : List (String × String)) (st : AggState)
    (content col_sep row_sep : String)
    (rs rows_pre rows_post : List (List (String × String)))
    (r pre post : List (String × String)) (v : String)
    (hks : keyedRows content col_sep row_sep = .ok rs)
    (hsplit : rs = rows_pre ++ r :: rows_post)
    (hrow : r = pre ++ ("Waehrung", v) :: post)
    (hv : v ≠ "EUR")
    (hrows : ∀ r2 ∈ rows_pre, ∃ p, processRow gls_process_field r2 = .ok p)
    (hpre : ∃ p, foldME (fun p kv => gls_process_field p kv.1 kv.2) Payment.init pre = .ok p) :
    process_csv ibans kws st content col_sep row_sep gls_process_field =
      .error (.unknownCurrency v, st) := by
  have hr : processRow gls_process_field r = .error (.unknownCurrency v) := by
    rw [hrow]; exact processRow_currency_error pre post v hv hpre
  have hmap : mapME (processRow gls_process_field) rs = .error (.unknownCurrency v) := by
    rw [hsplit]; exact mapME_append_error _ _ _ _ _ hrows hr
  unfold process_csv
  rw [hks]
  dsimp only
  rw [hmap]

/-- Witness for the amended C5: a one-file ingestion with a USD row aborts
with the currency error and leaves the aggregation state untouched. -/
theorem currency_state_unchanged_witness :
    ("USD" : String) ≠ "EUR" ∧
    process_csv [] [] initState
      "Buchungstag;Name Zahlungsbeteiligter;Waehrung\n05.01.2023;ACME;USD" ";" "\n"
      gls_process_field = .error (.unknownCurrency "USD", initState) :=
  ⟨by decide,
   currency_state_unchanged [] [] initState
     "Buchungstag;Name Zahlungsbeteiligter;Waehrung\n05.01.2023;ACME;USD" ";" "\n"
     [[("Buchungstag", "05.01.2023"), ("Name Zahlungsbeteiligter", "ACME"), ("Waehrung", "USD")]]
     [] []
     [("Buchungstag", "05.01.2023"), ("Name Zahlungsbeteiligter", "ACME"), ("Waehrung", "USD")]
     [("Buchungstag", "05.01.2023"), ("Name Zahlungsbeteiligter", "ACME")] [] "USD"
     rfl rfl rfl (by decide) (fun r2 hr2 => absurd hr2 (List.not_mem_nil r2)) ⟨_, rfl⟩⟩

lemma catSum_cons (p : Payment) (ps : List Payment) (c : Option String) :
    catSum (p :: ps) c = (if p.category = c then amountOf p else 0) + catSum ps c := by
  by_cases h : p.category = c <;> simp [catSum, List.filter_cons, h]

lemma total_split (c : Option String) :
    ∀ ps : List Payment,
      (ps.map amountOf).sum =
        catSum ps c + ((ps.filter (fun p => !decide (p.category = c))).map amountOf).sum := by
  intro ps
  induction ps with
  | nil => simp [catSum]
  | cons p ps ih =>
    by_cases h : p.category = c <;>
      simp [catSum_cons, List.filter_cons, h, ih] <;>
      ring

lemma catSum_filter_ne (c c2 : Option String) (h : c2 ≠ c) :
    ∀ ps : List Payment,
      catSum (ps.filter (fun p => !decide (p.category = c))) c2 = catSum ps c2 := by
  intro ps
  induction ps with
  | nil => rfl
  | cons p ps ih =>
    by_cases hc : p.category = c
    · have hc2 : ¬ p.category = c2 := by rw [hc]; exact fun hh => h hh.symm
      simp [List.filter_cons, hc, catSum_cons, hc2, ih]
      exact fun he => absurd he.symm h
    · simp [List.filter_cons, hc, catSum_cons, ih]

lemma sum_partition :
    ∀ (cs : List (Option String)) (ps : List Payment), cs.Nodup →
      (∀ p ∈ ps, p.category ∈ cs) →
      (cs.map (fun c => catSum ps c)).sum = (ps.map amountOf).sum := by
  intro cs
  induction cs with
  | nil =>
    intro ps _ hcov
    cases ps with
    | nil => simp
    | cons p ps => exact absurd (hcov p (List.mem_cons_self _ _)) (List.not_mem_nil _)
  | cons c cs ih =>
    intro ps hnd hcov
    have hnotin : c ∉ cs := (List.nodup_cons.mp hnd).1
    have hnd2 : cs.Nodup := (List.nodup_cons.mp hnd).2
    have hcov2 : ∀ p ∈ ps.filter (fun p => !decide (p.category = c)), p.category ∈ cs := by
      intro p hp
      have hmem : p ∈ ps := List.mem_of_mem_filter hp
      have hne : ¬ p.category = c := by simpa using List.of_mem_filter hp
      rcases List.mem_cons.mp (hcov p hmem) with h | h
      · exact absurd h hne
      · exact h
    have hmap : (cs.map (fun c2 => catSum ps c2)).sum =
        (cs.map (fun c2 => catSum (ps.filter (fun p => !decide (p.category = c))) c2)).sum := by
      have : ∀ c2 ∈ cs, catSum ps c2 =
          catSum (ps.filter (fun p => !decide (p.category = c))) c2 := by
        intro c2 hc2
        exact (catSum_filter_ne c c2 (fun he => hnotin (he ▸ hc2)) ps).symm
      rw [List.map_congr_left this]
    rw [List.map_cons, List.sum_cons, hmap,
      ih (ps.filter (fun p => !decide (p.category = c))) hnd2 hcov2]
    exact (total_split c ps).symm

/-- C3.  For every month, the sum over the year's discovered categories of
the layout's per-category sum equals the sum of all transaction amounts in
that month's bucket. -/
theorem month_conservation (payments : List (List Payment)) (month : Nat)
    (hm : month < 12) :
    ((discoverCategories payments).map (fun c => catSum (payments.getD month []) c)).sum =
      ((payments.getD month []).map amountOf).sum := by
  apply sum_partition
  · exact List.nodup_dedup _
  · intro p hp
    unfold discoverCategories
    apply List.mem_dedup.mpr
    apply List.mem_map.mpr
    refine ⟨p, ?_, rfl⟩
    apply List.mem_flatten.mpr
    exact ⟨payments.getD month [], List.mem_map.mpr ⟨month, List.mem_range.mpr hm, rfl⟩, hp⟩

/-- Witness for C3: the two-transaction January bucket. -/
theorem month_conservation_witness :
    (0 : Nat) < 12 ∧
    ((discoverCategories bucketsW).map (fun c => catSum (bucketsW.getD 0 []) c)).sum =
      ((bucketsW.getD 0 []).map amountOf).sum :=
  ⟨by decide, month_conservation bucketsW 0 (by decide)⟩

lemma possum_append (l : List Segment) (s : Segment) :
    possum (l ++ [s]) = possum l + (if 0 ≤ s.height then s.height else 0) := by
  by_cases h : 0 ≤ s.height <;>
    simp [possum, List.filter_append, List.filter_cons, h]

lemma negsum_append (l : List Segment) (s : Segment) :
    negsum (l ++ [s]) = negsum l + (if 0 ≤ s.height then 0 else s.height) := by
  by_cases h : 0 ≤ s.height
  · have h2 : ¬ s.height < 0 := not_lt.mpr h
    simp [negsum, List.filter_append, List.filter_cons, h, h2]
  · have h2 : s.height < 0 := not_le.mp h
    simp [negsum, List.filter_append, List.filter_cons, h, h2]

lemma negsum_nonpos : ∀ segs : List Segment, negsum segs ≤ 0 := by
  intro segs
  induction segs with
  | nil => simp [negsum]
  | cons s rest ih =>
    by_cases h : s.height < 0
    · have : negsum (s :: rest) = s.height + negsum rest := by
        simp [negsum, List.filter_cons, h]
      rw [this]
      have := le_of_lt h
      linarith
    · have : negsum (s :: rest) = negsum rest := by
        simp [negsum, List.filter_cons, h]
      rw [this]; exact ih

lemma negMagSum_eq_neg : ∀ segs : List Segment, negMagSum segs = -negsum segs := by
  intro segs
  induction segs with
  | nil => simp [negMagSum, negsum]
  | cons s rest ih =>
    by_cases h : s.height < 0
    · have h1 : negMagSum (s :: rest) = |s.height| + negMagSum rest := by
        simp [negMagSum, List.filter_cons, h]
      have h2 : negsum (s :: rest) = s.height + negsum rest := by
        simp [negsum, List.filter_cons, h]
      rw [h1, h2, abs_of_neg h, ih]; ring
    · have h1 : negMagSum (s :: rest) = negMagSum rest := by
        simp [negMagSum, List.filter_cons, h]
      have h2 : negsum (s :: rest) = negsum rest := by
        simp [negsum, List.filter_cons, h]
      rw [h1, h2, ih]

lemma append_singleton_decomp {α : Type} (l : List α) (x : α) (pre : List α) (s : α)
    (post : List α) (h : pre ++ s :: post = l ++ [x]) :
    (pre = l ∧ s = x ∧ post = []) ∨ (∃ post2, post = post2 ++ [x] ∧ l = pre ++ s :: post2) := by
  induction post using List.reverseRecOn with
  | nil =>
    left
    have h2 : pre ++ [s] = l ++ [x] := by simpa using h
    obtain ⟨h3, h4⟩ := List.append_inj' h2 rfl
    have h5 : s = x := by simpa using h4
    exact ⟨h3, h5, rfl⟩
  | append_singleton post2 y _ =>
    right
    have h2 : (pre ++ s :: post2) ++ [y] = l ++ [x] := by
      rw [← h]; simp
    obtain ⟨h3, h4⟩ := List.append_inj' h2 rfl
    have hy : y = x := by simpa using h4
    exact ⟨post2, by rw [hy], h3.symm⟩

lemma layout_loop_spec (ps : List Payment) :
    ∀ (cs : List (Option String)) (segs : List Segment) (bp tn : ℚ),
      bp = possum segs → tn = negsum segs →
      (∀ pre s post, segs = pre ++ s :: post →
        s.bottom = if 0 ≤ s.height then possum pre else negsum pre) →
      (List.foldl (stepSeg ps) (segs, bp, tn) cs).2.1 =
          possum (List.foldl (stepSeg ps) (segs, bp, tn) cs).1 ∧
        (List.foldl (stepSeg ps) (segs, bp, tn) cs).2.2 =
          negsum (List.foldl (stepSeg ps) (segs, bp, tn) cs).1 ∧
        (∀ pre s post, (List.foldl (stepSeg ps) (segs, bp, tn) cs).1 = pre ++ s :: post →
          s.bottom = if 0 ≤ s.height then possum pre else negsum pre) := by
  intro cs
  induction cs with
  | nil => intro segs bp tn h1 h2 h3; exact ⟨h1, h2, h3⟩
  | cons c cs ih =>
    intro segs bp tn h1 h2 h3
    rw [List.foldl_cons]
    show (List.foldl (stepSeg ps)
      (segs ++ [⟨c, if 0 ≤ catSum ps c then bp else tn, catSum ps c⟩],
       if 0 ≤ catSum ps c then bp + catSum ps c else bp,
       if 0 ≤ catSum ps c then tn else tn + catSum ps c) cs).2.1 = _ ∧ _ ∧ _
    apply ih
    · by_cases hS : 0 ≤ catSum ps c
      · rw [if_pos hS, possum_append]
        dsimp only
        rw [if_pos hS, h1]
      · rw [if_neg hS, possum_append]
        dsimp only
        rw [if_neg hS, h1, add_zero]
    · by_cases hS : 0 ≤ catSum ps c
      · rw [if_pos hS, negsum_append]
        dsimp only
        rw [if_pos hS, h2, add_zero]
      · rw [if_neg hS, negsum_append]
        dsimp only
        rw [if_neg hS, h2]
    · intro pre s post hdec
      rcases append_singleton_decomp segs _ pre s post hdec.symm with ⟨hp, hs, _⟩ | ⟨post2, _, hl⟩
      · subst hp
        rw [hs]
        by_cases hS : 0 ≤ catSum ps c
        · rw [if_pos hS, if_pos hS, h1]
        · rw [if_neg hS, if_neg hS, h2]
      · exact h3 pre s post2 hl

/-- C4.  For every month's layout: positive-segment heights sum to the
final `bottom_positives`, the magnitudes of negative segments sum to the
absolute value of the final `top_negatives`, every segment starts exactly at
the running total of its own stack (so segments of one stack never overlap),
and a zero-sum category yields a zero-height segment at the current positive
stack top without shifting later segments. -/
theorem stacking_partition (cs : List (Option String)) (ps : List Payment) :
    possum (layoutMonth cs ps).1 = (layoutMonth cs ps).2.1 ∧
    negMagSum (layoutMonth cs ps).1 = |(layoutMonth cs ps).2.2| ∧
    (∀ pre s post, (layoutMonth cs ps).1 = pre ++ s :: post →
      s.bottom = if 0 ≤ s.height then possum pre else negsum pre) ∧
    (∀ pre s post, (layoutMonth cs ps).1 = pre ++ s :: post → s.height = 0 →
      s.bottom = possum pre ∧ possum (pre ++ [s]) = possum pre) := by
  have base := layout_loop_spec ps cs [] 0 0 (by simp [possum]) (by simp [negsum])
    (by intro pre s post h; exact absurd h.symm (by simp))
  obtain ⟨hbp, htn, hbot⟩ := base
  unfold layoutMonth
  refine ⟨hbp.symm, ?_, hbot, ?_⟩
  · rw [htn, abs_of_nonpos (negsum_nonpos _), negMagSum_eq_neg]
  · intro pre s post h hz
    have hb := hbot pre s post h
    rw [hz] at hb
    constructor
    · simpa using hb
    · rw [possum_append, hz]
      simp

/-- Witness for C4: January's layout places the positive Salary segment at
0 with height 100 and the negative Rent segment at the (empty) negative
stack's top. -/
theorem stacking_partition_witness :
    (layoutMonth [some "Salary", some "Rent"] (bucketsW.getD 0 [])).1 =
      [⟨some "Salary", 0, 100⟩, ⟨some "Rent", 0, -40⟩] ∧
    (⟨some "Rent", (0 : ℚ), -40⟩ : Segment).bottom =
      if (0 : ℚ) ≤ (-40 : ℚ) then possum [⟨some "Salary", 0, 100⟩]
      else negsum [⟨some "Salary", 0, 100⟩] :=
  ⟨by with_unfolding_all rfl,
   (stacking_partition [some "Salary", some "Rent"] (bucketsW.getD 0 [])).2.2.1
     [⟨some "Salary", 0, 100⟩] ⟨some "Rent", 0, -40⟩ [] (by with_unfolding_all rfl)⟩

lemma getD_set_self {α : Type} :
    ∀ (l : List α) (i : Nat) (a d : α), i < l.length → (l.set i a).getD i d = a := by
  intro l
  induction l with
  | nil => intro i a d h; cases h
  | cons x xs ih =>
    intro i a d h
    cases i with
    | zero => rfl
    | succ j => exact ih j a d (Nat.lt_of_succ_lt_succ h)

lemma getD_set_ne {α : Type} :
    ∀ (l : List α) (i j : Nat) (a d : α), i ≠ j → (l.set i a).getD j d = l.getD j d := by
  intro l
  induction l with
  | nil => intro i j a d _; rfl
  | cons x xs ih =>
    intro i j a d hij
    cases i with
    | zero =>
      cases j with
      | zero => exact absurd rfl hij
      | succ j2 => rfl
    | succ i2 =>
      cases j with
      | zero => rfl
      | succ j2 => exact ih i2 j2 a d (fun he => hij (by rw [he]))

lemma getD_replicate_self {α : Type} (x : α) :
    ∀ (n i : Nat), (List.replicate n x).getD i x = x := by
  intro n
  induction n with
  | zero => intro i; rfl
  | succ m ih =>
    intro i
    cases i with
    | zero => rfl
    | succ j => exact ih j

lemma length_addToYear (ms : List (List Payment)) (i : Nat) (p : Payment) :
    (addToYear ms i p).length = ms.length := List.length_set ms i _

lemma getD_addToYear_self (ms : List (List Payment)) (i : Nat) (p : Payment)
    (hi : i < ms.length) : (addToYear ms i p).getD i [] = ms.getD i [] ++ [p] :=
  getD_set_self ms i _ [] hi

lemma getD_addToYear_ne (ms : List (List Payment)) (i j : Nat) (p : Payment)
    (hij : i ≠ j) : (addToYear ms i p).getD j [] = ms.getD j [] :=
  getD_set_ne ms i j _ [] hij

lemma lookupYear_insert_self :
    ∀ (B : Buckets) (y : Int) (i : Nat) (p : Payment),
      lookupYear (insertPayment B y i p) y =
        some (addToYear ((lookupYear B y).getD emptyYear) i p) := by
  intro B
  induction B with
  | nil => intro y i p; simp [insertPayment, lookupYear]
  | cons e rest ih =>
    intro y i p
    obtain ⟨y0, ms⟩ := e
    by_cases hy : y0 = y
    · subst hy
      simp [insertPayment, lookupYear]
    · simp only [insertPayment, lookupYear, if_neg hy]
      exact ih y i p

lemma lookupYear_insert_ne :
    ∀ (B : Buckets) (y y2 : Int) (i : Nat) (p : Payment), y2 ≠ y →
      lookupYear (insertPayment B y i p) y2 = lookupYear B y2 := by
  intro B
  induction B with
  | nil =>
    intro y y2 i p hy
    have hne : ¬ y = y2 := fun h => hy h.symm
    simp [insertPayment, lookupYear, hne]
  | cons e rest ih =>
    intro y y2 i p hy
    obtain ⟨y0, ms⟩ := e
    by_cases h0 : y0 = y
    · subst h0
      have hne : ¬ y0 = y2 := fun h => hy h.symm
      simp [insertPayment, lookupYear, hne]
    · simp only [insertPayment, lookupYear, if_neg h0]
      by_cases h2 : y0 = y2
      · simp [h2]
      · simp only [if_neg h2]
        exact ih y y2 i p hy

lemma lookupYear_mem :
    ∀ (B : Buckets) (y : Int) (ms : List (List Payment)),
      lookupYear B y = some ms → (y, ms) ∈ B := by
  intro B
  induction B with
  | nil => intro y ms h; cases h
  | cons e rest ih =>
    intro y ms h
    obtain ⟨y0, ms0⟩ := e
    by_cases hy : y0 = y
    · subst hy
      simp only [lookupYear, if_pos rfl] at h
      cases h
      exact List.mem_cons_self _ _
    · simp only [lookupYear, if_neg hy] at h
      exact List.mem_cons_of_mem _ (ih y ms h)

lemma length_lookup_getD (B : Buckets) (y : Int) (hWF : WFB B) :
    ((lookupYear B y).getD emptyYear).length = 12 := by
  cases h : lookupYear B y with
  | none => simp [emptyYear]
  | some ms =>
    simp only [Option.getD_some]
    exact hWF (y, ms) (lookupYear_mem B y ms h)

lemma WFB_insert :
    ∀ (B : Buckets) (y : Int) (i : Nat) (p : Payment), WFB B →
      WFB (insertPayment B y i p) := by
  intro B
  induction B with
  | nil =>
    intro y i p _
    intro e he
    simp only [insertPayment] at he
    rcases List.mem_singleton.mp he with rfl
    simp [length_addToYear, emptyYear]
  | cons e0 rest ih =>
    intro y i p hWF
    obtain ⟨y0, ms⟩ := e0
    by_cases hy : y0 = y
    · subst hy
      simp only [insertPayment, if_pos rfl]
      intro e he
      rcases List.mem_cons.mp he with rfl | he2
      · simpa [length_addToYear] using hWF (y0, ms) (List.mem_cons_self _ _)
      · exact hWF e (List.mem_cons_of_mem _ he2)
    · simp only [insertPayment, if_neg hy]
      intro e he
      rcases List.mem_cons.mp he with rfl | he2
      · exact hWF (y0, ms) (List.mem_cons_self _ _)
      · exact ih y i p (fun e2 he3 => hWF e2 (List.mem_cons_of_mem _ he3)) e he2

lemma getBucket_insert_self (B : Buckets) (y : Int) (i : Nat) (p : Payment)
    (hWF : WFB B) (hi : i < 12) :
    getBucket (insertPayment B y i p) y i = getBucket B y i ++ [p] := by
  unfold getBucket
  rw [lookupYear_insert_self, Option.getD_some]
  exact getD_addToYear_self _ i p (by rw [length_lookup_getD B y hWF]; exact hi)

lemma getBucket_insert_ne (B : Buckets) (y : Int) (i : Nat) (p : Payment)
    (y2 : Int) (i2 : Nat) (h : ¬(y2 = y ∧ i2 = i)) :
    getBucket (insertPayment B y i p) y2 i2 = getBucket B y2 i2 := by
  by_cases hy : y2 = y
  · subst hy
    have hi : i ≠ i2 := fun he => h ⟨rfl, he.symm⟩
    unfold getBucket
    rw [lookupYear_insert_self, Option.getD_some]
    exact getD_addToYear_ne _ i i2 p hi
  · unfold getBucket
    rw [lookupYear_insert_ne B y y2 i p hy]

lemma bucketAll_spec (allP : List Payment) :
    ∀ (todo : List Payment) (B : Buckets),
      WFB B →
      (∀ p ∈ allP,
        (∃ d, p.date = some d ∧ p ∈ getBucket B d.year (d.month - 1)) ∨ p ∈ todo) →
      (∀ y i p, p ∈ getBucket B y i →
        p ∈ allP ∧ ∃ d, p.date = some d ∧ d.year = y ∧ d.month - 1 = i) →
      (∀ p ∈ todo, p ∈ allP ∧ ∃ d, p.date = some d ∧ 1 ≤ d.month ∧ d.month ≤ 12) →
      ∃ B2, bucketAll allP B todo = .ok ⟨allP, B2⟩ ∧ WFB B2 ∧
        (∀ p ∈ allP, ∃ d, p.date = some d ∧ p ∈ getBucket B2 d.year (d.month - 1)) ∧
        (∀ y i p, p ∈ getBucket B2 y i →
          p ∈ allP ∧ ∃ d, p.date = some d ∧ d.year = y ∧ d.month - 1 = i) := by
  intro todo
  induction todo with
  | nil =>
    intro B hWF h1 h2 _
    refine ⟨B, rfl, hWF, ?_, h2⟩
    intro p hp
    rcases h1 p hp with h | h
    · exact h
    · exact absurd h (List.not_mem_nil p)
  | cons p rest ih =>
    intro B hWF h1 h2 htodo
    obtain ⟨hpall, d, hd, hm1, hm2⟩ := htodo p (List.mem_cons_self _ _)
    have hi : d.month - 1 < 12 := by omega
    have hstep : bucketAll allP B (p :: rest) =
        bucketAll allP (insertPayment B d.year (d.month - 1) p) rest := by
      simp only [bucketAll, hd]
    rw [hstep]
    apply ih
    · exact WFB_insert B _ _ p hWF
    · intro p2 hp2
      rcases h1 p2 hp2 with ⟨d2, hd2, hb2⟩ | hmem
      · left
        refine ⟨d2, hd2, ?_⟩
        by_cases hc : d2.year = d.year ∧ d2.month - 1 = d.month - 1
        · rw [hc.1, hc.2] at hb2
          rw [hc.1, hc.2, getBucket_insert_self B _ _ p hWF hi]
          exact List.mem_append_left _ hb2
        · rw [getBucket_insert_ne B _ _ p _ _ hc]
          exact hb2
      · rcases List.mem_cons.mp hmem with rfl | hmem2
        · left
          refine ⟨d, hd, ?_⟩
          rw [getBucket_insert_self B _ _ p2 hWF hi]
          exact List.mem_append_right _ (List.mem_singleton.mpr rfl)
        · right; exact hmem2
    · intro y i p2 hp2
      by_cases hc : y = d.year ∧ i = d.month - 1
      · rw [hc.1, hc.2, getBucket_insert_self B _ _ p hWF hi] at hp2
        rcases List.mem_append.mp hp2 with hold | hnew
        · obtain ⟨hin, d2, ha, hb, hcc⟩ := h2 _ _ _ hold
          exact ⟨hin, d2, ha, by rw [hc.1]; exact hb, by rw [hc.2]; exact hcc⟩
        · rcases List.mem_singleton.mp hnew with rfl
          exact ⟨hpall, d, hd, hc.1.symm, hc.2.symm⟩
      · rw [getBucket_insert_ne B _ _ p _ _ hc] at hp2
        exact h2 y i p2 hp2
    · intro p2 hp2
      exact htodo p2 (List.mem_cons_of_mem _ hp2)

lemma associate_date (ibans kws : List (String × String)) (p q : Payment)
    (h : associate_category ibans kws p = .ok q) : q.date = p.date := by
  unfold associate_category at h
  cases hb : p.iban.bind (lookupStr ibans) with
  | some cat => rw [hb] at h; cases h; rfl
  | none =>
    rw [hb] at h
    cases hnm : p.name with
    | none => rw [hnm] at h; cases h
    | some nm =>
      cases hus : p.usage with
      | none => rw [hnm, hus] at h; cases h
      | some us =>
        rw [hnm, hus] at h
        dsimp only at h
        cases hfk : firstKeyword kws (lowerStr nm) (lowerStr us) with
        | some cat => rw [hfk] at h; cases h; rfl
        | none => rw [hfk] at h; cases h; rfl

lemma mapME_ok_mem (f : α → Except ε β) :
    ∀ (l : List α) (bs : List β), mapME f l = .ok bs →
      ∀ b ∈ bs, ∃ a ∈ l, f a = .ok b := by
  intro l
  induction l with
  | nil =>
    intro bs h b hb
    simp only [mapME] at h
    cases h
    exact absurd hb (List.not_mem_nil b)
  | cons a l ih =>
    intro bs h b hb
    simp only [mapME] at h
    cases hfa : f a with
    | error e => rw [hfa] at h; cases h
    | ok b1 =>
      rw [hfa] at h
      dsimp only at h
      cases hrest : mapME f l with
      | error e => rw [hrest] at h; cases h
      | ok bs1 =>
        rw [hrest] at h
        dsimp only at h
        cases h
        rcases List.mem_cons.mp hb with rfl | hb2
        · exact ⟨a, List.mem_cons_self _ _, hfa⟩
        · obtain ⟨a2, ha2, hfa2⟩ := ih bs1 hrest b hb2
          exact ⟨a2, List.mem_cons_of_mem _ ha2, hfa2⟩

/-- C9.  Ingesting a batch extends the global list by exactly the
categorized batch, keeps the list and the year/month buckets consistent
(every payment appears in both), and every payment sits only in the bucket
named by its date: year key `date.year`, month index `date.month - 1`. -/
theorem buckets_consistent (ibans kws : List (String × String)) (st : AggState)
    (batch cps : List Payment)
    (hst : Consistent st)
    (hmap : mapME (associate_category ibans kws) batch = .ok cps)
    (hdates : ∀ p ∈ batch, ∃ d, p.date = some d ∧ 1 ≤ d.month ∧ d.month ≤ 12) :
    ∃ st2, process_payments ibans kws st batch = .ok st2 ∧
      st2.all_payments = st.all_payments ++ cps ∧
      Consistent st2 ∧
      (∀ q ∈ cps, ∃ d, q.date = some d ∧ q ∈ getBucket st2.buckets d.year (d.month - 1)) := by
  obtain ⟨hWF, h1, h2⟩ := hst
  have hcps : ∀ q ∈ cps, ∃ d, q.date = some d ∧ 1 ≤ d.month ∧ d.month ≤ 12 := by
    intro q hq
    obtain ⟨a, ha, hfa⟩ := mapME_ok_mem _ _ _ hmap q hq
    obtain ⟨d, hd, hmm1, hmm2⟩ := hdates a ha
    exact ⟨d, by rw [associate_date ibans kws a q hfa, hd], hmm1, hmm2⟩
  obtain ⟨B2, hrun, hWF2, hc1, hc2⟩ :=
    bucketAll_spec (st.all_payments ++ cps) cps st.buckets hWF
      (by
        intro p hp
        rcases List.mem_append.mp hp with hL | hR
        · left; exact h1 p hL
        · right; exact hR)
      (by
        intro y i p hp
        obtain ⟨hin, hrest⟩ := h2 y i p hp
        exact ⟨List.mem_append_left _ hin, hrest⟩)
      (by
        intro p hp
        exact ⟨List.mem_append_right _ hp, hcps p hp⟩)
  refine ⟨⟨st.all_payments ++ cps, B2⟩, ?_, rfl, ⟨hWF2, hc1, hc2⟩, ?_⟩
  · unfold process_payments
    rw [hmap]
    dsimp only
    exact hrun
  · intro q hq
    exact hc1 q (List.mem_append_right _ hq)

/-- Witness for C9: ingesting a one-payment batch into the empty state. -/
theorem buckets_consistent_witness :
    Consistent initState ∧
    (∃ st2, process_payments [] [] initState [payBatchW] = .ok st2 ∧
      st2.all_payments =
        initState.all_payments ++ [{ payBatchW with category := some "Unknown" }] ∧
      Consistent st2 ∧
      (∀ q ∈ [{ payBatchW with category := some "Unknown" }],
        ∃ d, q.date = some d ∧ q ∈ getBucket st2.buckets d.year (d.month - 1))) := by
  have hempty : ∀ (y : Int) (i : Nat), getBucket ([] : Buckets) y i = [] := by
    intro y i
    unfold getBucket lookupYear
    simpa [emptyYear] using getD_replicate_self ([] : List Payment) 12 i
  have hcons : Consistent initState := by
    refine ⟨?_, ?_, ?_⟩
    · intro e he; exact absurd he (List.not_mem_nil e)
    · intro p hp; exact absurd hp (List.not_mem_nil p)
    · intro y i p hp
      have hp2 : p ∈ getBucket ([] : Buckets) y i := hp
      rw [hempty y i] at hp2
      exact absurd hp2 (List.not_mem_nil p)
  refine ⟨hcons, ?_⟩
  exact buckets_consistent [] [] initState [payBatchW]
    [{ payBatchW with category := some "Unknown" }] hcons rfl
    (by
      intro p hp
      rcases List.mem_singleton.mp hp with rfl
      exact ⟨⟨2023, 1, 5⟩, rfl, by decide, by decide⟩)
